import Mathlib

/-!
Verification of the text-search-to-highlight pipeline and the text-layer
coordinate projection of the react-pdf-viewer library.

Part A embeds `createHighlightsForText` from `src/lib/utils.ts`: building the
per-page full text with run offsets, the escaped case-insensitive regex scan,
the interval-overlap selection of contributing runs, and the PDF-space
rectangles.  All of Part A is executable over `ℚ` / `Nat`.

Part B embeds the glyph projection of `renderTextLayer` in
`src/lib/PDFPage.tsx` (font size, font height, left/top placement, width
correction) over `ℝ`, and the two `renderHighlight` coordinate conversions
found in `src/lib/PDFHighlight.tsx`.
-/

/-- A text item as delivered by the PDF engine (`textContent.items`): the
string, the 6-component text-to-PDF-space transform
`[scaleX, skewY, skewX, scaleY, translateX, translateY]`, and the measured
width/height.  Numeric components are modelled as rationals. -/
structure TextItem where
  str : String
  transform : List ℚ
  width : ℚ
  height : ℚ

/-- A retained run of `createHighlightsForText` (utils.ts lines 43-51): the
text plus its `[startIndex, endIndex)` interval in the page's concatenated
full text, and the positional metadata copied from the item. -/
structure Run where
  text : String
  startIndex : Nat
  endIndex : Nat
  transform : List ℚ
  width : ℚ
  height : ℚ

/-- One regex match of the scan loop (utils.ts lines 59-61): `match.index`,
`match.index + match[0].length`, and the matched text `match[0]`. -/
structure MatchSpan where
  startIndex : Nat
  endIndex : Nat
  matchedText : String

/-- A highlight rectangle (utils.ts lines 77-82), in PDF user-space units. -/
structure PDFRect where
  left : ℚ
  top : ℚ
  width : ℚ
  height : ℚ

/-- A highlight record (utils.ts lines 88-95). -/
structure Highlight where
  id : String
  pageNumber : Nat
  rects : List PDFRect
  color : String
  opacity : ℚ
  content : String

/-- The viewport descriptor consumed by the highlight renderer
(`PDFHighlight.tsx`): width, height and scale (rotation is already folded
into width/height by the engine). -/
structure Viewport where
  width : ℚ
  height : ℚ
  scale : ℚ

/-- Full-text construction of `createHighlightsForText` (utils.ts lines
41-53): items with a non-empty string are retained, each recording
`startIndex = fullText.length` and `endIndex = startIndex + str.length`,
and its text is appended to the accumulated full text.  (The JS guard
`item.str && typeof item.str === 'string'` drops empty strings, since an
empty string is falsy.)  Returns the final full text and the retained runs. -/
def buildItems : List TextItem → String → String × List Run
  | [], acc => (acc, [])
  | it :: rest, acc =>
    if it.str = "" then buildItems rest acc
    else
      let res := buildItems rest (acc ++ it.str)
      (res.1,
        ⟨it.str, acc.length, acc.length + it.str.length,
          it.transform, it.width, it.height⟩ :: res.2)

/-- The regex metacharacters escaped by utils.ts line 56:
`searchText.replace(/[.*+?^$\x7b\x7d()|[\]\\]/g, backslash-prefix)`. -/
def metachars : List Char :=
  ['.', '*', '+', '?', '^', '$', '\x7b', '\x7d', '(', ')', '|', '[', ']', '\\']

/-- The escaping of utils.ts line 56: every metacharacter of the query is
replaced by a backslash followed by itself; other characters pass through. -/
def escapeChars : List Char → List Char
  | [] => []
  | c :: cs =>
    if c ∈ metachars then '\\' :: c :: escapeChars cs
    else c :: escapeChars cs

/-- Interpretation of the fragment of the JS RegExp pattern language that a
literal-only pattern can use: a backslash followed by a metacharacter denotes
that character literally; a plain non-metacharacter denotes itself; an
unescaped metacharacter would act as a pattern operator (and a backslash
before a non-metacharacter could start a character-class operator), so those
patterns are not plain literals and yield `none`.  A `some l` result means
the pattern matches exactly the literal character sequence `l`. -/
def litPattern : List Char → Option (List Char)
  | [] => some []
  | c :: cs =>
    if c = '\\' then
      match cs with
      | [] => none
      | d :: ds =>
        if d ∈ metachars then (litPattern ds).map (fun l => d :: l) else none
    else if c ∈ metachars then none
    else (litPattern cs).map (fun l => c :: l)

/-- Case-insensitive character comparison, the effect of the `i` regex flag. -/
def ciEq (a b : Char) : Bool := a.toLower == b.toLower

/-- `litMatch pat text` : the literal pattern matches a prefix of `text`,
comparing characters case-insensitively. -/
def litMatch : List Char → List Char → Bool
  | [], _ => true
  | _ :: _, [] => false
  | p :: ps, t :: ts => ciEq p t && litMatch ps ts

/-- The global `exec` scan loop of utils.ts lines 59-61: starting at
position `i` of the remaining text, report the leftmost match, then resume
immediately after its end (the regex `lastIndex` semantics of the `g` flag:
non-overlapping, leftmost-first). -/
def scanAux (pat : List Char) : List Char → Nat → List MatchSpan
  | [], _ => []
  | t :: ts, i =>
    if litMatch pat (t :: ts) then
      ⟨i, i + pat.length, String.mk ((t :: ts).take pat.length)⟩ ::
        scanAux pat (List.drop (pat.length - 1) ts) (i + pat.length)
    else
      scanAux pat ts (i + 1)
  termination_by txt _ => txt.length
  decreasing_by
    · simp only [List.length_drop, List.length_cons]
      omega
    · simp only [List.length_cons]
      omega

/-- The match collection of utils.ts lines 56-61: the query is escaped, the
escaped pattern is compiled, and all case-insensitive non-overlapping
occurrences are collected over the full text. -/
def findMatches (fullText query : String) : List MatchSpan :=
  match litPattern (escapeChars query.data) with
  | some pat => scanAux pat fullText.data 0
  | none => []

/-- The contributing-run selection of utils.ts lines 66-68:
`textItem.endIndex > startIndex && textItem.startIndex < endIndex`. -/
def contributingRuns (runs : List Run) (m : MatchSpan) : List Run :=
  runs.filter fun r => decide (m.startIndex < r.endIndex ∧ r.startIndex < m.endIndex)

/-- The PDF-space rectangle of a contributing run (utils.ts lines 69-84):
`[scaleX, _, _, scaleY, translateX, translateY]` is destructured from the
transform; `fontSize = |scaleY|`, `left = translateX`, `top = translateY`,
`width = textItem.width || |scaleX| * text.length` (the JS `||` falls back
when the width is 0), `height = fontSize`. -/
def rectOfRun (r : Run) : PDFRect :=
  let scaleX := r.transform.getD 0 0
  let scaleY := r.transform.getD 3 0
  let translateX := r.transform.getD 4 0
  let translateY := r.transform.getD 5 0
  let fontSize := |scaleY|
  { left := translateX
    top := translateY
    width := if r.width = 0 then |scaleX| * (r.text.length : ℚ) else r.width
    height := fontSize }

/-- The per-page body of `createHighlightsForText` (utils.ts lines 38-99):
build the full text and runs, scan for matches, map each match to the
rectangles of its contributing runs, and keep only matches with at least one
rectangle (`if (rects.length > 0)`). -/
def pageHighlights (pageNum : Nat) (items : List TextItem)
    (searchText color : String) (opacity : ℚ) : List Highlight :=
  let res := buildItems items ""
  (findMatches res.1 searchText).filterMap fun m =>
    let rects := (contributingRuns res.2 m).map rectOfRun
    if rects.length > 0 then
      some ⟨"highlight-" ++ toString pageNum ++ "-" ++ toString m.startIndex,
        pageNum, rects, color, opacity, m.matchedText⟩
    else none

/-- The emptiness test of the guard `!searchText.trim()` (utils.ts line 26):
the trimmed string is empty exactly when every character of the query is
whitespace; modelled directly as that condition so it evaluates by kernel
reduction. -/
def isBlank (s : String) : Bool := s.data.all Char.isWhitespace

/-- `createHighlightsForText` (utils.ts lines 20-110): the guard
`if (!pdfDocument || !searchText.trim()) return []` for an empty or
whitespace-only query, then the per-page pipeline over pages 1..numPages.
The document is modelled as the list of its pages' text items. -/
def createHighlightsForText (pages : List (List TextItem))
    (searchText : String) (color : String) (opacity : ℚ) : List Highlight :=
  if isBlank searchText then []
  else
    (pages.enum.map fun p =>
      pageHighlights (p.1 + 1) p.2 searchText color opacity).flatten

/-- `Chained lb spans` : every span starts at or after `lb`, is non-empty,
and each span ends at or before the next one starts — the shape of a
non-overlapping, leftmost-first match list. -/
def Chained : Nat → List MatchSpan → Prop
  | _, [] => True
  | lb, m :: ms => lb ≤ m.startIndex ∧ m.startIndex < m.endIndex ∧ Chained m.endIndex ms

/-- `Tiles s runs e` : the runs' `[startIndex, endIndex)` intervals tile
`[s, e)` in order: each run starts where the previous ended, its end is its
start plus its text length, and the last run ends at `e`. -/
def Tiles : Nat → List Run → Nat → Prop
  | s, [], e => s = e
  | s, r :: rs, e =>
    r.startIndex = s ∧ r.endIndex = s + r.text.length ∧ Tiles r.endIndex rs e

/-- The destructured transform of `renderTextLayer` (PDFPage.tsx line 163):
`[scaleX, skewY, skewX, scaleY, translateX, translateY]`, over `ℝ` since the
projection takes square roots. -/
structure Tf where
  scaleX : ℝ
  skewY : ℝ
  skewX : ℝ
  scaleY : ℝ
  translateX : ℝ
  translateY : ℝ

/-- The font size assigned to the glyph span (PDFPage.tsx lines 167 and 180):
`fontSize = sqrt(scaleX*scaleX + skewY*skewY) * viewport.scale`, the
magnitude of the matrix's horizontal basis vector times the viewport scale. -/
noncomputable def fontSize (t : Tf) (scale : ℝ) : ℝ :=
  Real.sqrt (t.scaleX * t.scaleX + t.skewY * t.skewY) * scale

/-- The glyph height (PDFPage.tsx line 168):
`fontHeight = sqrt(skewX*skewX + scaleY*scaleY) * viewport.scale`, the
magnitude of the matrix's vertical basis vector times the viewport scale. -/
noncomputable def fontHeight (t : Tf) (scale : ℝ) : ℝ :=
  Real.sqrt (t.skewX * t.skewX + t.scaleY * t.scaleY) * scale

/-- The glyph span's left coordinate (PDFPage.tsx line 171):
`left = translateX * viewport.scale`. -/
def leftPx (t : Tf) (scale : ℝ) : ℝ := t.translateX * scale

/-- The glyph span's top coordinate (PDFPage.tsx line 172):
`top = (translateY - sqrt(skewX*skewX + scaleY*scaleY)) * viewport.scale`. -/
noncomputable def topPx (t : Tf) (scale : ℝ) : ℝ :=
  (t.translateY - Real.sqrt (t.skewX * t.skewX + t.scaleY * t.scaleY)) * scale

/-- The glyph-box top coordinate as the specification words it
(spec section 4.2): `(viewport.height_in_pdf_units - translateY) *
viewport.scale - fontSizePx`, where the spec's `fontSizePx` is the scaled
magnitude of the vertical basis vector.  Stated for comparison with the
source's `topPx`. -/
noncomputable def topPxPerSpec (t : Tf) (pageHeight scale : ℝ) : ℝ :=
  (pageHeight - t.translateY) * scale -
    Real.sqrt (t.skewX * t.skewX + t.scaleY * t.scaleY) * scale

/-- The glyph span's width (PDFPage.tsx line 187):
`textWidth = textItem.width * viewport.scale`. -/
def textWidth (w scale : ℝ) : ℝ := w * scale

/-- The horizontal correction ratio (PDFPage.tsx line 196):
`scaleFactorX = textWidth / measuredWidth` with
`textWidth = width * viewport.scale`. -/
def scaleFactorX (w scale measuredWidth : ℚ) : ℚ :=
  w * scale / measuredWidth

/-- The horizontal scale transform actually applied to the glyph span
(PDFPage.tsx lines 185-202): only when `textItem.width > 0` and
`measuredWidth > 0` and `|scaleFactorX - 1| > 0.01` is `scaleX(scaleFactorX)`
set; in every other case the span keeps the identity horizontal scale 1. -/
def appliedScaleFactorX (w scale measuredWidth : ℚ) : ℚ :=
  if 0 < w then
    if 0 < measuredWidth then
      if 1 / 100 < |scaleFactorX w scale measuredWidth - 1| then
        scaleFactorX w scale measuredWidth
      else 1
    else 1
  else 1

/-- The rect-to-screen conversion of the `renderHighlight` in
`PDFHighlight.tsx` lines 24-32: the rect is used unchanged (the comment
reads: the rect coordinates are already converted to viewport pixels by the
API layer, no additional scaling needed). -/
def canvasRectViewportReady (rect : PDFRect) (_vp : Viewport) : PDFRect :=
  rect

/-- The rect-to-screen conversion of the alternate `renderHighlight` variant
in `PDFHighlight.tsx` (lines 122-127 of the packed source): PDF bottom-left
coordinates are flipped to screen top-left and scaled:
`left = rect.left * scale`, `top = (viewport.height - rect.top - rect.height)
* scale`, `width = rect.width * scale`, `height = rect.height * scale`. -/
def canvasRectPdfToScreen (rect : PDFRect) (vp : Viewport) : PDFRect :=
  { left := rect.left * vp.scale
    top := (vp.height - rect.top - rect.height) * vp.scale
    width := rect.width * vp.scale
    height := rect.height * vp.scale }

/-! ## Helper lemmas -/

theorem litMatch_length {p l : List Char} (h : litMatch p l = true) :
    p.length ≤ l.length := by
  induction p generalizing l with
  | nil => simp
  | cons c cs ih =>
    cases l with
    | nil => simp [litMatch] at h
    | cons t ts =>
      simp only [litMatch, Bool.and_eq_true] at h
      simpa [Nat.succ_le_succ_iff] using ih h.2

theorem backslash_mem_metachars : '\\' ∈ metachars := by decide

theorem litPattern_escapeChars (l : List Char) :
    litPattern (escapeChars l) = some l := by
  induction l with
  | nil => rfl
  | cons c cs ih =>
    by_cases hc : c ∈ metachars
    · rw [escapeChars, if_pos hc, litPattern.eq_def]
      simp only [if_pos rfl, if_pos hc, ih]
      rfl
    · have hne : c ≠ '\\' := fun h => hc (h ▸ backslash_mem_metachars)
      rw [escapeChars, if_neg hc, litPattern.eq_def]
      simp only [if_neg hne, if_neg hc, ih]
      rfl

theorem chained_mono {lb lb' : Nat} {l : List MatchSpan} (h : lb' ≤ lb)
    (hc : Chained lb l) : Chained lb' l := by
  cases l with
  | nil => trivial
  | cons m ms => exact ⟨Nat.le_trans h hc.1, hc.2.1, hc.2.2⟩

theorem chained_le {lb : Nat} {l : List MatchSpan} (hc : Chained lb l) :
    ∀ m ∈ l, lb ≤ m.startIndex := by
  induction l generalizing lb with
  | nil => intro m hm; cases hm
  | cons a as ih =>
    intro m hm
    rcases List.mem_cons.mp hm with rfl | hm
    · exact hc.1
    · have h1 : lb ≤ a.endIndex := Nat.le_trans hc.1 (Nat.le_of_lt hc.2.1)
      exact Nat.le_trans h1 (ih hc.2.2 m hm)

theorem chained_pairwise {lb : Nat} {l : List MatchSpan} (hc : Chained lb l) :
    l.Pairwise (fun a b => a.endIndex ≤ b.startIndex ∧ a.startIndex < b.startIndex) := by
  induction l generalizing lb with
  | nil => exact List.Pairwise.nil
  | cons a as ih =>
    refine List.Pairwise.cons (fun b hb => ?_) (ih hc.2.2)
    have hend : a.endIndex ≤ b.startIndex := chained_le hc.2.2 b hb
    exact ⟨hend, Nat.lt_of_lt_of_le hc.2.1 hend⟩

theorem scanAux_chained (pat : List Char) (hp : pat ≠ []) :
    ∀ n (txt : List Char), txt.length ≤ n → ∀ i, Chained i (scanAux pat txt i) := by
  have hlen : 0 < pat.length := List.length_pos.mpr hp
  intro n
  induction n with
  | zero =>
    intro txt hl i
    have : txt = [] := List.eq_nil_of_length_eq_zero (Nat.le_zero.mp hl)
    subst this
    rw [scanAux]
    trivial
  | succ n ih =>
    intro txt hl i
    cases txt with
    | nil => rw [scanAux]; trivial
    | cons t ts =>
      simp only [List.length_cons] at hl
      rw [scanAux]
      by_cases hm : litMatch pat (t :: ts) = true
      · rw [if_pos hm]
        refine ⟨Nat.le_refl _, ?_, ?_⟩
        · show i < i + pat.length
          omega
        · show Chained (i + pat.length) _
          refine ih _ ?_ _
          have := List.length_drop (pat.length - 1) ts
          omega
      · rw [if_neg hm]
        exact chained_mono (by omega) (ih ts (by omega) (i + 1))

theorem scanAux_mem (pat : List Char) :
    ∀ n (txt : List Char), txt.length ≤ n → ∀ i m, m ∈ scanAux pat txt i →
      i ≤ m.startIndex ∧ m.endIndex = m.startIndex + pat.length ∧
      m.endIndex ≤ i + txt.length ∧
      litMatch pat (List.drop (m.startIndex - i) txt) = true := by
  intro n
  induction n with
  | zero =>
    intro txt hl i m hm
    have : txt = [] := List.eq_nil_of_length_eq_zero (Nat.le_zero.mp hl)
    subst this
    rw [scanAux] at hm
    cases hm
  | succ n ih =>
    intro txt hl i m hm
    cases txt with
    | nil => rw [scanAux] at hm; cases hm
    | cons t ts =>
      simp only [List.length_cons] at hl
      rw [scanAux] at hm
      by_cases hmt : litMatch pat (t :: ts) = true
      · rw [if_pos hmt] at hm
        have hplen : pat.length ≤ ts.length + 1 := by
          simpa using litMatch_length hmt
        rcases List.mem_cons.mp hm with rfl | hm
        · refine ⟨Nat.le_refl _, rfl, ?_, ?_⟩
          · show i + pat.length ≤ i + (t :: ts).length
            simp only [List.length_cons]
            omega
          · show litMatch pat (List.drop (i - i) (t :: ts)) = true
            simpa using hmt
        · have hld := List.length_drop (pat.length - 1) ts
          have hdrop : (List.drop (pat.length - 1) ts).length ≤ n := by omega
          obtain ⟨h1, h2, h3, h4⟩ := ih _ hdrop _ m hm
          rw [hld] at h3
          by_cases hplz : pat.length = 0
          · refine ⟨by omega, h2, by simp only [List.length_cons]; omega, ?_⟩
            cases pat with
            | nil => rfl
            | cons a as => simp at hplz
          · have hpl1 : 1 ≤ pat.length := Nat.one_le_iff_ne_zero.mpr hplz
            refine ⟨by omega, h2, by simp only [List.length_cons]; omega, ?_⟩
            rw [List.drop_drop] at h4
            have harith : pat.length - 1 + (m.startIndex - (i + pat.length))
                = m.startIndex - i - 1 := by omega
            rw [harith] at h4
            have hstep : List.drop (m.startIndex - i) (t :: ts)
                = List.drop (m.startIndex - i - 1) ts := by
              have h5 : m.startIndex - i = (m.startIndex - i - 1) + 1 := by omega
              conv_lhs => rw [h5]
              rw [List.drop_succ_cons]
            rw [hstep]
            exact h4
      · rw [if_neg hmt] at hm
        obtain ⟨h1, h2, h3, h4⟩ := ih ts (by omega) (i + 1) m hm
        refine ⟨by omega, h2, by simp only [List.length_cons]; omega, ?_⟩
        have hstep : List.drop (m.startIndex - i) (t :: ts)
            = List.drop (m.startIndex - (i + 1)) ts := by
          have h5 : m.startIndex - i = (m.startIndex - (i + 1)) + 1 := by omega
          rw [h5, List.drop_succ_cons]
        rw [hstep]
        exact h4

theorem tiles_buildItems : ∀ (items : List TextItem) (acc : String),
    Tiles acc.length (buildItems items acc).2 (buildItems items acc).1.length := by
  intro items
  induction items with
  | nil =>
    intro acc
    show acc.length = acc.length
    rfl
  | cons it rest ih =>
    intro acc
    by_cases h : it.str = ""
    · rw [buildItems, if_pos h]
      exact ih acc
    · rw [buildItems, if_neg h]
      refine ⟨rfl, rfl, ?_⟩
      have := ih (acc ++ it.str)
      rwa [String.length_append] at this

theorem tiles_find {runs : List Run} : ∀ {s e p : Nat}, Tiles s runs e →
    s ≤ p → p < e → ∃ r ∈ runs, r.startIndex ≤ p ∧ p < r.endIndex := by
  induction runs with
  | nil =>
    intro s e p ht h1 h2
    have : s = e := ht
    omega
  | cons r rs ih =>
    intro s e p ht h1 h2
    obtain ⟨hs, he, hrest⟩ := ht
    by_cases hp : p < r.endIndex
    · exact ⟨r, List.mem_cons_self r rs, by omega, hp⟩
    · obtain ⟨r2, hm, hr2⟩ := ih hrest (by omega) h2
      exact ⟨r2, List.mem_cons_of_mem r hm, hr2⟩

theorem length_filterMap_of_isSome {α β : Type} (f : α → Option β) :
    ∀ l : List α, (∀ a ∈ l, (f a).isSome) → (l.filterMap f).length = l.length := by
  intro l
  induction l with
  | nil => intro _; rfl
  | cons a as ih =>
    intro h
    obtain ⟨b, hb⟩ := Option.isSome_iff_exists.mp (h a (List.mem_cons_self a as))
    rw [List.filterMap_cons, hb]
    simp only [List.length_cons]
    rw [ih (fun x hx => h x (List.mem_cons_of_mem a hx))]

theorem data_ne_nil_of_ne_empty {s : String} (h : s ≠ "") : s.data ≠ [] := by
  intro hd
  exact h (String.ext (hd.trans rfl))

/-! ## Claims -/

/-- Claim C4: a run is in a match's contributing-run set if and only if its
offset interval overlaps the match span in the half-open sense
(`run.endOffset > s` and `run.startOffset < e`); in particular a run lying
entirely before or entirely after the span is never included. -/
theorem contributingRuns_mem_iff (runs : List Run) (m : MatchSpan) (r : Run) :
    (r ∈ contributingRuns runs m ↔
      r ∈ runs ∧ m.startIndex < r.endIndex ∧ r.startIndex < m.endIndex) ∧
    ((r.endIndex ≤ m.startIndex ∨ m.endIndex ≤ r.startIndex) →
      r ∉ contributingRuns runs m) := by
  have hiff : r ∈ contributingRuns runs m ↔
      r ∈ runs ∧ m.startIndex < r.endIndex ∧ r.startIndex < m.endIndex := by
    rw [contributingRuns, List.mem_filter, decide_eq_true_eq]
  refine ⟨hiff, fun h hr => ?_⟩
  have := hiff.mp hr
  omega

/-- Claim C5: the query is matched literally: escaping compiles the pattern
to exactly the query's own characters (no character acts as a regex
operator), `findMatches` is the case-insensitive literal non-overlapping
scan with that pattern, and every reported match literally matches the
query case-insensitively at its start position in the full text. -/
theorem findMatches_literal (fullText query : String) :
    litPattern (escapeChars query.data) = some query.data ∧
    findMatches fullText query = scanAux query.data fullText.data 0 ∧
    ∀ m ∈ findMatches fullText query,
      litMatch query.data (List.drop m.startIndex fullText.data) = true := by
  have h := litPattern_escapeChars query.data
  have heq : findMatches fullText query = scanAux query.data fullText.data 0 := by
    unfold findMatches
    rw [h]
  refine ⟨h, heq, fun m hm => ?_⟩
  rw [heq] at hm
  have := scanAux_mem query.data fullText.data.length fullText.data
    (Nat.le_refl _) 0 m hm
  simpa using this.2.2.2

/-- Claim C6: for every full text and every non-empty query, the match
spans are pairwise non-overlapping and sorted by strictly ascending start
index (each match ends at or before the next one starts). -/
theorem findMatches_sorted_disjoint (fullText query : String) (hq : query ≠ "") :
    (findMatches fullText query).Pairwise
      (fun a b => a.endIndex ≤ b.startIndex ∧ a.startIndex < b.startIndex) := by
  have h := litPattern_escapeChars query.data
  have heq : findMatches fullText query = scanAux query.data fullText.data 0 := by
    unfold findMatches
    rw [h]
  rw [heq]
  exact chained_pairwise
    (scanAux_chained query.data (data_ne_nil_of_ne_empty hq)
      fullText.data.length fullText.data (Nat.le_refl _) 0)

/-- Witness for C6 at a concrete text and query. -/
theorem findMatches_sorted_disjoint_w :
    (findMatches "abcabc" "abc").Pairwise
      (fun a b => a.endIndex ≤ b.startIndex ∧ a.startIndex < b.startIndex) :=
  findMatches_sorted_disjoint "abcabc" "abc" (by decide)

/-- Claim C9: searching any document with an empty or whitespace-only query
returns the empty highlight list (the guard on the trimmed query), with no
error. -/
theorem createHighlights_blank_query (pages : List (List TextItem))
    (searchText color : String) (opacity : ℚ) (hq : isBlank searchText = true) :
    createHighlightsForText pages searchText color opacity = [] := by
  rw [createHighlightsForText, if_pos hq]

/-- Witness for C9 at a whitespace-only query. -/
theorem createHighlights_blank_query_w :
    createHighlightsForText [[⟨"abc", [1, 0, 0, 1, 0, 0], 3, 1⟩]] "  " "#ffff00" (3 / 10) = [] :=
  createHighlights_blank_query [[⟨"abc", [1, 0, 0, 1, 0, 0], 3, 1⟩]] "  " "#ffff00" (3 / 10)
    (by decide)

/-- Claim C10: after full-text construction the retained runs' intervals
exactly tile `[0, fullText.length)` in order; consequently every match of a
non-empty query has at least one contributing run, so the guard that drops
matches with zero rectangles never discards a match — the page yields
exactly one highlight per match. -/
theorem runs_tile_and_no_match_dropped (items : List TextItem) (q : String)
    (hq : q ≠ "") :
    Tiles 0 (buildItems items "").2 (buildItems items "").1.length ∧
    (∀ m ∈ findMatches (buildItems items "").1 q,
      contributingRuns (buildItems items "").2 m ≠ []) ∧
    ∀ (pageNum : Nat) (color : String) (opacity : ℚ),
      (pageHighlights pageNum items q color opacity).length
        = (findMatches (buildItems items "").1 q).length := by
  have htiles := tiles_buildItems items ""
  have h0 : ("" : String).length = 0 := rfl
  rw [h0] at htiles
  have hmain : ∀ m ∈ findMatches (buildItems items "").1 q,
      contributingRuns (buildItems items "").2 m ≠ [] := by
    intro m hm
    have h := litPattern_escapeChars q.data
    have heq : findMatches (buildItems items "").1 q
        = scanAux q.data (buildItems items "").1.data 0 := by
      unfold findMatches
      rw [h]
    rw [heq] at hm
    obtain ⟨h1, h2, h3, h4⟩ := scanAux_mem q.data (buildItems items "").1.data.length
      (buildItems items "").1.data (Nat.le_refl _) 0 m hm
    have hqlen : 1 ≤ q.data.length := by
      have hne := data_ne_nil_of_ne_empty hq
      cases hqd : q.data with
      | nil => exact absurd hqd hne
      | cons a as => simp
    have hftlen : (buildItems items "").1.length = (buildItems items "").1.data.length := rfl
    have hstart_lt : m.startIndex < (buildItems items "").1.length := by
      rw [hftlen]
      omega
    obtain ⟨r, hrmem, hr1, hr2⟩ := tiles_find htiles (Nat.zero_le _) hstart_lt
    have hrc : r ∈ contributingRuns (buildItems items "").2 m := by
      rw [contributingRuns, List.mem_filter, decide_eq_true_eq]
      exact ⟨hrmem, hr2, by omega⟩
    exact List.ne_nil_of_mem hrc
  refine ⟨htiles, hmain, fun pageNum color opacity => ?_⟩
  simp only [pageHighlights]
  apply length_filterMap_of_isSome
  intro m hm
  have hne := hmain m hm
  have hlen : ((contributingRuns (buildItems items "").2 m).map rectOfRun).length > 0 := by
    rw [List.length_map]
    exact List.length_pos.mpr hne
  simp only [hlen, if_pos]
  rfl

/-- Witness for C10 at a concrete page and query. -/
theorem runs_tile_and_no_match_dropped_w :
    Tiles 0 (buildItems [⟨"ab", [1, 0, 0, 1, 0, 0], 2, 1⟩] "").2
        (buildItems [⟨"ab", [1, 0, 0, 1, 0, 0], 2, 1⟩] "").1.length ∧
    (∀ m ∈ findMatches (buildItems [⟨"ab", [1, 0, 0, 1, 0, 0], 2, 1⟩] "").1 "a",
      contributingRuns (buildItems [⟨"ab", [1, 0, 0, 1, 0, 0], 2, 1⟩] "").2 m ≠ []) ∧
    ∀ (pageNum : Nat) (color : String) (opacity : ℚ),
      (pageHighlights pageNum [⟨"ab", [1, 0, 0, 1, 0, 0], 2, 1⟩] "a" color opacity).length
        = (findMatches (buildItems [⟨"ab", [1, 0, 0, 1, 0, 0], 2, 1⟩] "").1 "a").length :=
  runs_tile_and_no_match_dropped [⟨"ab", [1, 0, 0, 1, 0, 0], 2, 1⟩] "a" (by decide)

/-- Counterexample to C1 as stated: for the spec's own example transform
`[12, 0, 0, 12, 50, 700]` at viewport scale 1 on a 792-unit-high page, the
code's glyph-box top is `(700 - 12) * 1 = 688`, while the claimed flipped
formula `(height - translateY) * scale - fontSizePx` gives
`(792 - 700) * 1 - 12 = 80`. -/
theorem topPx_ne_topPxPerSpec :
    topPx ⟨12, 0, 0, 12, 50, 700⟩ 1 ≠ topPxPerSpec ⟨12, 0, 0, 12, 50, 700⟩ 792 1 := by
  have hs : Real.sqrt ((0 : ℝ) * 0 + 12 * 12) = 12 := by
    rw [show ((0 : ℝ) * 0 + 12 * 12) = 12 ^ 2 by norm_num,
      Real.sqrt_sq (by norm_num : (0 : ℝ) ≤ 12)]
  simp only [topPx, topPxPerSpec, hs]
  norm_num

/-- Claim C1 (amended): the glyph-box top produced by the text layer is
`(translateY - sqrt(skewX^2 + scaleY^2)) * viewport.scale`, that is,
`translateY * scale` minus the scaled glyph height `fontHeight`; the Y
coordinate is not flipped around the page height. -/
theorem topPx_eq_translateY_sub_fontHeight (t : Tf) (scale : ℝ) :
    topPx t scale = t.translateY * scale - fontHeight t scale := by
  rw [topPx, fontHeight]
  ring

/-- Counterexample to C2 as stated: the rect the search pipeline produces
for run transform `[12, 0, 0, 12, 50, 700]` has `top = 700` (PDF units), and
the renderer of PDFHighlight.tsx lines 24-32 places it on screen at
`top = 700`, not at `(viewport.height - translateY - height) * scale =
(792 - 700 - 12) * 1 = 80`. -/
theorem highlight_top_cex :
    (canvasRectViewportReady
        (rectOfRun ⟨"Hello world", 0, 11, [12, 0, 0, 12, 50, 700], 66, 12⟩)
        ⟨612, 792, 1⟩).top ≠ ((792 : ℚ) - 700 - 12) * 1 := by
  norm_num [canvasRectViewportReady, rectOfRun]

/-- Claim C2 (amended): the search pipeline stores highlight rects in PDF
units with `top = translateY` and `height = |scaleY|`; the `renderHighlight`
in PDFHighlight.tsx renders them unchanged (on-screen top = `translateY`),
while the alternate `renderHighlight` variant in the same source anchors at
`top = (viewport.height - translateY - height) * scale`, the claimed Y-flip
formula without baseline correction. -/
theorem highlight_top_formulas (txt : String) (s0 e0 : Nat)
    (a b c d e f w h : ℚ) (vp : Viewport) :
    (canvasRectPdfToScreen (rectOfRun ⟨txt, s0, e0, [a, b, c, d, e, f], w, h⟩) vp).top
      = (vp.height - f - |d|) * vp.scale ∧
    (canvasRectViewportReady (rectOfRun ⟨txt, s0, e0, [a, b, c, d, e, f], w, h⟩) vp).top
      = f := by
  constructor <;> simp [canvasRectPdfToScreen, canvasRectViewportReady, rectOfRun, List.getD]

/-- Counterexample to C3 as stated: for transform `[5, 0, 0, 12, 0, 0]` at
scale 1 the font size the code assigns is `sqrt(5^2 + 0^2) = 5`, not the
vertical-basis magnitude `sqrt(0^2 + 12^2) = 12` the claim states (which the
code computes separately as `fontHeight`). -/
theorem fontSize_ne_fontHeight_cex :
    fontSize ⟨5, 0, 0, 12, 0, 0⟩ 1 ≠ fontHeight ⟨5, 0, 0, 12, 0, 0⟩ 1 := by
  have h1 : Real.sqrt ((5 : ℝ) * 5 + 0 * 0) = 5 := by
    rw [show ((5 : ℝ) * 5 + 0 * 0) = 5 ^ 2 by norm_num,
      Real.sqrt_sq (by norm_num : (0 : ℝ) ≤ 5)]
  have h2 : Real.sqrt ((0 : ℝ) * 0 + 12 * 12) = 12 := by
    rw [show ((0 : ℝ) * 0 + 12 * 12) = 12 ^ 2 by norm_num,
      Real.sqrt_sq (by norm_num : (0 : ℝ) ≤ 12)]
  simp only [fontSize, fontHeight, h1, h2]
  norm_num

/-- Claim C3 (amended): the font size assigned to the glyph span is the
magnitude of the matrix's horizontal basis vector `(scaleX, skewY)` times
`viewport.scale` — nonnegative, with square `(scaleX^2 + skewY^2) * scale^2`
— while the vertical-basis magnitude `sqrt(skewX^2 + scaleY^2) * scale` is
computed as `fontHeight` and used for the top offset, not for the font
size. -/
theorem fontSize_horizontal_basis (t : Tf) (scale : ℝ) (hs : 0 ≤ scale) :
    fontSize t scale ^ 2 = (t.scaleX ^ 2 + t.skewY ^ 2) * scale ^ 2 ∧
    0 ≤ fontSize t scale ∧
    fontHeight t scale ^ 2 = (t.skewX ^ 2 + t.scaleY ^ 2) * scale ^ 2 := by
  refine ⟨?_, mul_nonneg (Real.sqrt_nonneg _) hs, ?_⟩
  · rw [fontSize, mul_pow,
      Real.sq_sqrt (add_nonneg (mul_self_nonneg t.scaleX) (mul_self_nonneg t.skewY))]
    ring
  · rw [fontHeight, mul_pow,
      Real.sq_sqrt (add_nonneg (mul_self_nonneg t.skewX) (mul_self_nonneg t.scaleY))]
    ring

/-- Witness for C3 (amended) at transform `[5, 0, 0, 12, 0, 0]`, scale 1. -/
theorem fontSize_horizontal_basis_w :
    fontSize ⟨5, 0, 0, 12, 0, 0⟩ 1 ^ 2 = ((5 : ℝ) ^ 2 + 0 ^ 2) * 1 ^ 2 ∧
    0 ≤ fontSize ⟨5, 0, 0, 12, 0, 0⟩ 1 ∧
    fontHeight ⟨5, 0, 0, 12, 0, 0⟩ 1 ^ 2 = ((0 : ℝ) ^ 2 + 12 ^ 2) * 1 ^ 2 :=
  fontSize_horizontal_basis ⟨5, 0, 0, 12, 0, 0⟩ 1 (by norm_num)

/-- Claim C7: the glyph projection is linear in the viewport scale — for a
fixed run transform, doubling the scale doubles the left coordinate, the
magnitude of the top offset, the font size, the glyph height, and the span
width. -/
theorem projection_scale_linear (t : Tf) (s w : ℝ) :
    leftPx t (2 * s) = 2 * leftPx t s ∧
    |topPx t (2 * s)| = 2 * |topPx t s| ∧
    fontSize t (2 * s) = 2 * fontSize t s ∧
    fontHeight t (2 * s) = 2 * fontHeight t s ∧
    textWidth w (2 * s) = 2 * textWidth w s := by
  refine ⟨by rw [leftPx, leftPx]; ring, ?_,
    by rw [fontSize, fontSize]; ring,
    by rw [fontHeight, fontHeight]; ring,
    by rw [textWidth, textWidth]; ring⟩
  have h : topPx t (2 * s) = 2 * topPx t s := by
    rw [topPx, topPx]
    ring
  rw [h, abs_mul, abs_two]

/-- Claim C8: the horizontal correction factor applied to the glyph span is
`(run.width * viewport.scale) / measuredWidth`, applied only when its
discrepancy from 1 exceeds the 0.01 tolerance; when the measured width is
zero or negative no correction is applied (the factor stays 1). -/
theorem horizontal_scale_correction (w s mw : ℚ) :
    (mw ≤ 0 → appliedScaleFactorX w s mw = 1) ∧
    (0 < w → 0 < mw → 1 / 100 < |scaleFactorX w s mw - 1| →
      appliedScaleFactorX w s mw = w * s / mw) ∧
    (|scaleFactorX w s mw - 1| ≤ 1 / 100 → appliedScaleFactorX w s mw = 1) := by
  refine ⟨fun hmw => ?_, fun hw hmw ht => ?_, fun ht => ?_⟩
  · rw [appliedScaleFactorX]
    split_ifs with h1 h2 h3
    · exact absurd h2 (not_lt.mpr hmw)
    · exact absurd h2 (not_lt.mpr hmw)
    · rfl
    · rfl
  · rw [appliedScaleFactorX, if_pos hw, if_pos hmw, if_pos ht, scaleFactorX]
  · rw [appliedScaleFactorX]
    split_ifs with h1 h2 h3
    · exact absurd h3 (not_lt.mpr ht)
    · rfl
    · rfl
    · rfl

/-- Witness for C8 at width 2, scale 1, measured width 1. -/
theorem horizontal_scale_correction_w :
    appliedScaleFactorX 2 1 1 = 2 * 1 / 1 :=
  (horizontal_scale_correction 2 1 1).2.1 (by norm_num) (by norm_num)
    (by rw [scaleFactorX]; norm_num)
